import Mathlib

/-!
Verification of the aerospace-window-switcher application (`src/main.rs`).

The development shallowly embeds the program's data model and operations:

* `WindowInfo` mirrors `struct WindowInfo` (id / name / info).
* The fuzzy matcher (`SkimMatcherV2::fuzzy_match`) is treated as an opaque
  scoring oracle of type `Matcher := String → String → Option Int`
  (`None` = no match, `some s` = match with score `s`); every theorem about
  the filter is proved for an arbitrary oracle.
* `filter_windows_fn` embeds `AerospaceWindowSwitcher::filter_windows`
  (the pure core: windows × query → ranked indices).  Rust's stable
  `sort_by(|a, b| b.1.cmp(&a.1))` is embedded as `List.mergeSort` with the
  comparator `fun a b => b.2 ≤ a.2` (a stable sort placing larger scores
  first, exactly the comparator's order).
* `AppState` mirrors the UI-relevant fields of `AerospaceWindowSwitcher`;
  navigation, commit, pointer click and the per-frame loading poll are
  embedded as state transformers.  Fallible unchecked indexing
  (`self.windows[idx]`) is embedded with `Option`: a `none` result marks a
  Rust panic.
* `fetch_windows` embeds the fetch-and-parse path, with the process
  interaction abstracted into a `SpawnResult` and the diagnostic stream
  (`eprintln!`) made explicit as a list of log lines.  Rust's
  `str::trim` and `splitn(3, '|')` are embedded as structural functions on
  the character list of a `String` (`rust_trim`, `splitn_pipe`);
  `char::is_whitespace` is approximated by `Char.isWhitespace`.
-/

/-- Embeds `struct WindowInfo { id, name, info }` from `src/main.rs`. -/
structure WindowInfo where
  id : String
  name : String
  info : String
deriving DecidableEq

/-- The fuzzy-matching oracle: `fuzzy_match(candidate, pattern)` returns
`none` for no match and `some score` otherwise. -/
abbrev Matcher := String → String → Option Int

/-- The per-window score-combination rule of `filter_windows`
(lines 109-113 of `src/main.rs`): max of the two scores when both fields
match, the single score when exactly one matches, no score otherwise. -/
def combined_score (m : Matcher) (query : String) (w : WindowInfo) : Option Int :=
  match m w.name query, m w.info query with
  | some s1, some s2 => some (max s1 s2)
  | some s, none => some s
  | none, some s => some s
  | none, none => none

/-- The body of the `filter_map` in `filter_windows` (lines 106-114):
maps an enumerated window to `some (index, combined score)` or `none`. -/
def scoreEntry (m : Matcher) (query : String) (p : Nat × WindowInfo) : Option (Nat × Int) :=
  match m p.2.name query, m p.2.info query with
  | some s1, some s2 => some (p.1, max s1 s2)
  | some s, none => some (p.1, s)
  | none, some s => some (p.1, s)
  | none, none => none

/-- Embeds the pure core of `AerospaceWindowSwitcher::filter_windows`
(lines 95-120): for the empty query the identity index list `0..len`;
otherwise score every window against the oracle, drop the non-matching
ones, stably sort by score descending, and keep the indices. -/
def filter_windows_fn (m : Matcher) (windows : List WindowInfo) (query : String) : List Nat :=
  if query.isEmpty then
    List.range windows.length
  else
    ((windows.enum.filterMap (scoreEntry m query)).mergeSort
      (fun a b => b.2 ≤ a.2)).map Prod.fst

/-- Embeds the UI-relevant state of `struct AerospaceWindowSwitcher`.
The shared handoff slot and the wall clock are passed explicitly to the
operations that consult them. -/
structure AppState where
  windows : List WindowInfo
  search_query : String
  filtered_windows : List Nat
  selected_index : Option Nat
  is_loading : Bool
  window_to_focus : Option String
deriving DecidableEq

/-- Embeds `filter_windows` as a state transformer: recompute
`filtered_windows` and reset `selected_index` to `Some(0)` (both branches
of the Rust function end with `self.selected_index = Some(0)`). -/
def filter_windows (m : Matcher) (s : AppState) : AppState :=
  { s with
    filtered_windows := filter_windows_fn m s.windows s.search_query
    selected_index := some 0 }

theorem scoreEntry_eq_map (m : Matcher) (q : String) (p : Nat × WindowInfo) :
    scoreEntry m q p = (combined_score m q p.2).map (fun s => (p.1, s)) := by
  unfold scoreEntry combined_score
  cases m p.2.name q <;> cases m p.2.info q <;> rfl

theorem combined_score_isSome (m : Matcher) (q : String) (w : WindowInfo) :
    (combined_score m q w).isSome ↔ ((m w.name q).isSome ∨ (m w.info q).isSome) := by
  unfold combined_score
  cases m w.name q <;> cases m w.info q <;> simp

/-- C2: for the empty query the filter is the identity pass-through
`0..N` in original order, for every window list and every oracle, and the
result does not depend on the scoring oracle at all. -/
theorem claim_C2_empty_query_identity (m : Matcher) (ws : List WindowInfo) :
    filter_windows_fn m ws "" = List.range ws.length
      ∧ ∀ m' : Matcher, filter_windows_fn m ws "" = filter_windows_fn m' ws "" := by
  have h : "".isEmpty = true := rfl
  constructor
  · simp [filter_windows_fn, h]
  · intro m'
    simp [filter_windows_fn, h]

/-- C7: every invocation of the Filter Engine, for any query (empty or
not) and any prior state (in particular any prior selection), resets the
selection index to `Some(0)`. -/
theorem claim_C7_selection_reset (m : Matcher) (s : AppState) :
    (filter_windows m s).selected_index = some 0 := rfl

/-- Embeds Rust's `str::trim`: drop whitespace from both ends.
(`char::is_whitespace` is approximated by `Char.isWhitespace`.) -/
def rust_trim (s : String) : String :=
  String.mk (((s.data.dropWhile Char.isWhitespace).reverse.dropWhile
    Char.isWhitespace).reverse)

/-- Embeds Rust's `str::splitn(n, '|')` on a character list: at most `n`
parts, the last part holding the unsplit remainder. -/
def splitn_chars : Nat → List Char → List String
  | 0, _ => []
  | 1, cs => [String.mk cs]
  | n + 2, cs =>
    match cs.dropWhile (fun c => c ≠ '|') with
    | [] => [String.mk cs]
    | _ :: tail =>
      String.mk (cs.takeWhile (fun c => c ≠ '|')) :: splitn_chars (n + 1) tail

/-- Embeds `line.splitn(3, '|')` (with `n` kept general). -/
def splitn_pipe (n : Nat) (line : String) : List String :=
  splitn_chars n line.data

/-- Embeds the per-line `filter_map` body of `fetch_windows`
(lines 80-91 of `src/main.rs`): split the line on `|` into at most three
parts; with fewer than three parts the line is dropped, otherwise the
trimmed parts become `id`, `name`, `info`. -/
def parse_line (line : String) : Option WindowInfo :=
  match splitn_pipe 3 line with
  | idPart :: namePart :: infoPart :: _ =>
    some ⟨rust_trim idPart, rust_trim namePart, rust_trim infoPart⟩
  | _ => none

/-- Embeds the line-processing chain of `fetch_windows` (lines 75-92):
skip blank/whitespace-only lines, then parse each remaining line. -/
def parse_lines (lines : List String) : List WindowInfo :=
  (lines.filter (fun line => !(rust_trim line).isEmpty)).filterMap parse_line

/-- The outcome of running the external `aerospace list-windows --all`
process: either the launch failed, or the process ran and exited with the
given success flag, stdout lines and stderr text. -/
inductive SpawnResult where
  | launchErr (msg : String)
  | output (success : Bool) (stdout_lines : List String) (stderr : String)
deriving DecidableEq

/-- Embeds `AerospaceWindowSwitcher::fetch_windows` (lines 55-93) over an
abstract process outcome.  The second component is the diagnostic stream
(the `eprintln!` lines). -/
def fetch_windows : SpawnResult → List WindowInfo × List String
  | .launchErr e => ([], ["Failed to execute aerospace command: " ++ e])
  | .output success lines stderr =>
    if success then (parse_lines lines, [])
    else ([], ["Aerospace command failed: " ++ stderr])

theorem parse_line_of_short (line : String)
    (h : (splitn_pipe 3 line).length < 3) : parse_line line = none := by
  unfold parse_line
  rcases hs : splitn_pipe 3 line with _ | ⟨a, _ | ⟨b, _ | ⟨c, t⟩⟩⟩ <;> simp_all
  omega

/-- C3: parsing processes text line by line — blank or whitespace-only
lines are skipped, lines splitting into fewer than three parts are
dropped silently, and a line with three parts yields a record of the
trimmed parts; the five-line scenario parses to exactly the three records
in order. -/
theorem claim_C3_parse_lines :
    (∀ line rest, (rust_trim line).isEmpty = true →
        parse_lines (line :: rest) = parse_lines rest)
    ∧ (∀ line rest, (splitn_pipe 3 line).length < 3 →
        parse_lines (line :: rest) = parse_lines rest)
    ∧ (∀ line rest idPart namePart infoPart, (rust_trim line).isEmpty = false →
        splitn_pipe 3 line = [idPart, namePart, infoPart] →
        parse_lines (line :: rest) =
          ⟨rust_trim idPart, rust_trim namePart, rust_trim infoPart⟩ :: parse_lines rest)
    ∧ parse_lines ["1|Terminal|~/proj", "2|Browser|github.com", "bad-line", "  ",
        "3|Editor|main.rs"] =
      [⟨"1", "Terminal", "~/proj"⟩, ⟨"2", "Browser", "github.com"⟩,
       ⟨"3", "Editor", "main.rs"⟩] := by
  refine ⟨?_, ?_, ?_, ?_⟩
  · intro line rest h
    simp [parse_lines, List.filter_cons, h]
  · intro line rest h
    by_cases hb : (rust_trim line).isEmpty
    · simp [parse_lines, List.filter_cons, hb]
    · simp [parse_lines, List.filter_cons, hb, List.filterMap_cons,
        parse_line_of_short line h]
  · intro line rest idPart namePart infoPart hb hsplit
    simp [parse_lines, List.filter_cons, hb, List.filterMap_cons, parse_line, hsplit]
  · decide

/-- C3 witness: the skip clauses of the theorem applied to the blank line
and the malformed line of the scenario. -/
theorem claim_C3_parse_lines_witness :
    parse_lines ["  "] = parse_lines [] ∧ parse_lines ["bad-line"] = parse_lines [] :=
  ⟨claim_C3_parse_lines.1 "  " [] (by decide),
   claim_C3_parse_lines.2.1 "bad-line" [] (by decide)⟩

/-- C9: a failed launch or a non-zero exit of the external process logs
the error and yields an empty window list; every process outcome yields a
plain (possibly empty) window list — no error is ever propagated. -/
theorem claim_C9_fetch_error_empty :
    (∀ e, fetch_windows (.launchErr e) =
        ([], ["Failed to execute aerospace command: " ++ e]))
    ∧ (∀ lines stderr, fetch_windows (.output false lines stderr) =
        ([], ["Aerospace command failed: " ++ stderr]))
    ∧ (∀ r, (fetch_windows r).1 = []
        ∨ ∃ lines stderr, r = SpawnResult.output true lines stderr
            ∧ (fetch_windows r).1 = parse_lines lines) := by
  refine ⟨fun e => rfl, fun lines stderr => rfl, ?_⟩
  intro r
  rcases r with e | ⟨success, lines, stderr⟩
  · exact Or.inl rfl
  · cases success
    · exact Or.inl rfl
    · exact Or.inr ⟨lines, stderr, rfl, rfl⟩

theorem scored_mem (m : Matcher) (q : String) (ws : List WindowInfo) (i : Nat) (s : Int) :
    (i, s) ∈ ws.enum.filterMap (scoreEntry m q) ↔
      ∃ w, ws[i]? = some w ∧ combined_score m q w = some s := by
  rw [List.mem_filterMap]
  constructor
  · rintro ⟨⟨j, w⟩, hmem, hf⟩
    rw [scoreEntry_eq_map, Option.map_eq_some'] at hf
    obtain ⟨sc, hcs, hpair⟩ := hf
    obtain ⟨rfl, rfl⟩ := Prod.mk.inj hpair
    exact ⟨w, List.mem_enum_iff_getElem?.mp hmem, hcs⟩
  · rintro ⟨w, hw, hcs⟩
    refine ⟨(i, w), List.mem_enum_iff_getElem?.mpr hw, ?_⟩
    rw [scoreEntry_eq_map]
    simp [hcs]

theorem scored_bind (m : Matcher) (q : String) (ws : List WindowInfo) {x : Nat × Int}
    (hx : x ∈ ws.enum.filterMap (scoreEntry m q)) :
    ws[x.1]?.bind (combined_score m q) = some x.2 := by
  obtain ⟨w, hw, hc⟩ := (scored_mem m q ws x.1 x.2).mp hx
  rw [hw]
  simpa using hc

theorem filter_windows_fn_mem (m : Matcher) (ws : List WindowInfo) (q : String)
    (hq : q.isEmpty = false) (i : Nat) :
    i ∈ filter_windows_fn m ws q ↔
      ∃ w, ws[i]? = some w ∧ ((m w.name q).isSome ∨ (m w.info q).isSome) := by
  unfold filter_windows_fn
  rw [if_neg (by simp [hq])]
  have hperm := List.mergeSort_perm (ws.enum.filterMap (scoreEntry m q))
    (fun a b => b.2 ≤ a.2)
  rw [List.mem_map]
  constructor
  · rintro ⟨⟨j, sc⟩, hmem, hfst⟩
    cases hfst
    obtain ⟨w, hw, hcs⟩ := (scored_mem m q ws j sc).mp (hperm.mem_iff.mp hmem)
    refine ⟨w, hw, (combined_score_isSome m q w).mp ?_⟩
    rw [hcs]
    rfl
  · rintro ⟨w, hw, hor⟩
    obtain ⟨sc, hsc⟩ :=
      Option.isSome_iff_exists.mp ((combined_score_isSome m q w).mpr hor)
    exact ⟨(i, sc), hperm.mem_iff.mpr ((scored_mem m q ws i sc).mpr ⟨w, hw, hsc⟩), rfl⟩

theorem filter_windows_fn_sorted (m : Matcher) (ws : List WindowInfo) (q : String)
    (hq : q.isEmpty = false) :
    (filter_windows_fn m ws q).Pairwise (fun i j =>
      ∀ si sj, ws[i]?.bind (combined_score m q) = some si →
               ws[j]?.bind (combined_score m q) = some sj → sj ≤ si) := by
  unfold filter_windows_fn
  rw [if_neg (by simp [hq])]
  have hperm := List.mergeSort_perm (ws.enum.filterMap (scoreEntry m q))
    (fun a b => b.2 ≤ a.2)
  have hsorted := @List.sorted_mergeSort (Nat × Int) (fun a b => decide (b.2 ≤ a.2))
    (by intro a b c hab hbc; simp only [decide_eq_true_eq] at *; exact le_trans hbc hab)
    (by intro a b; simpa using le_total b.2 a.2)
    (ws.enum.filterMap (scoreEntry m q))
  rw [List.pairwise_map]
  refine (List.Pairwise.and_mem.mp hsorted).imp ?_
  rintro a b ⟨ha, hb, hle⟩ si sj hsi hsj
  have hba := scored_bind m q ws (hperm.mem_iff.mp ha)
  have hbb := scored_bind m q ws (hperm.mem_iff.mp hb)
  rw [hba] at hsi
  rw [hbb] at hsj
  cases hsi
  cases hsj
  simpa using hle

/-- C1: for every window list and every non-empty query the ranked output
contains exactly the indices of windows where the oracle matches the query
against `name` or against `info`, and the output is sorted by the combined
score (max of both field scores, or the single matching field's score)
in descending order. -/
theorem claim_C1_ranked_filter (m : Matcher) (ws : List WindowInfo) (q : String)
    (hq : q.isEmpty = false) :
    (∀ i, i ∈ filter_windows_fn m ws q ↔
        ∃ w, ws[i]? = some w ∧ ((m w.name q).isSome ∨ (m w.info q).isSome))
    ∧ (filter_windows_fn m ws q).Pairwise (fun i j =>
        ∀ si sj, ws[i]?.bind (combined_score m q) = some si →
                 ws[j]?.bind (combined_score m q) = some sj → sj ≤ si) :=
  ⟨filter_windows_fn_mem m ws q hq, filter_windows_fn_sorted m ws q hq⟩

/-- C1 witness: the theorem applied at a concrete matcher, window list and
query; index `0` is ranked because the constant oracle matches. -/
theorem claim_C1_ranked_filter_witness :
    ("t".isEmpty = false)
      ∧ 0 ∈ filter_windows_fn (fun _ _ => some 1) [⟨"1", "a", "b"⟩] "t" :=
  ⟨rfl, ((claim_C1_ranked_filter (fun _ _ => some 1) [⟨"1", "a", "b"⟩] "t" rfl).1 0).mpr
    ⟨⟨"1", "a", "b"⟩, rfl, Or.inl rfl⟩⟩

/-- External side effects of the interaction controller: the asynchronous
`aerospace focus --window-id <id>` request and the viewport close signal. -/
inductive Effect where
  | focusCmd (id : String)
  | close
deriving DecidableEq

/-- Embeds `focus_selected_window` (lines 126-134): resolve
`selected_index` through `filtered_windows` and store the resolved
window's `id` in `window_to_focus`; the returned `Bool` is the Rust return
value.  A `none` result marks the panic of the unchecked indexing
`self.windows[idx]`. -/
def focus_selected_window (s : AppState) : Option (AppState × Bool) :=
  match s.selected_index with
  | none => some (s, false)
  | some selected =>
    match s.filtered_windows[selected]? with
    | none => some (s, false)
    | some idx =>
      match s.windows[idx]? with
      | none => none
      | some w => some ({ s with window_to_focus := some w.id }, true)

/-- Embeds the Enter-commit branch of `update` (lines 162-173): when the
selection resolves, take the pending focus id, spawn the asynchronous
focus command, and signal the viewport to close. -/
def commit (s : AppState) : Option (AppState × List Effect) :=
  if s.selected_index.isSome then
    match focus_selected_window s with
    | none => none
    | some (s1, true) =>
      match s1.window_to_focus with
      | some wid => some ({ s1 with window_to_focus := none },
          [Effect.focusCmd wid, Effect.close])
      | none => some (s1, [Effect.close])
    | some (s1, false) => some (s1, [])
  else some (s, [])

/-- Embeds a pointer click on displayed row `row` (lines 252-266 of the
render closure): set `selected_index` to the position of the clicked
window's index in `filtered_windows`, resolve it, and close.  This path
emits no focus command: the spawn at line 167 is gated on the Enter key,
so the id stored in `window_to_focus` is never consumed. -/
def click_row (s : AppState) (row : Nat) : Option (AppState × List Effect) :=
  match s.filtered_windows[row]? with
  | none => some (s, [])
  | some winIdx =>
    match focus_selected_window
        { s with selected_index := s.filtered_windows.indexOf? winIdx } with
    | none => none
    | some (s2, true) => some (s2, [Effect.close])
    | some (s2, false) => some (s2, [])

/-- Embeds the ArrowDown / Ctrl-N / Ctrl-J branch of `update`
(lines 175-182): advance modulo the ranked length; no-op when
`filtered_windows` is empty. -/
def nav_next (s : AppState) : AppState :=
  if s.filtered_windows.isEmpty then s
  else
    { s with
      selected_index :=
        some ((s.selected_index.getD 0 + 1) % s.filtered_windows.length) }

/-- Embeds the ArrowUp / Ctrl-P / Ctrl-K branch of `update`
(lines 183-197): retreat with wrap-around; no-op when `filtered_windows`
is empty. -/
def nav_prev (s : AppState) : AppState :=
  if s.filtered_windows.isEmpty then s
  else
    { s with
      selected_index :=
        some (match s.selected_index with
          | some index =>
            if index = 0 then s.filtered_windows.length - 1 else index - 1
          | none => 0) }

/-- Embeds the query edit (lines 203-213): replace the query; re-filter
exactly when the text changed. -/
def edit_query (m : Matcher) (s : AppState) (q : String) : AppState :=
  if q = s.search_query then { s with search_query := q }
  else filter_windows m { s with search_query := q }

/-- Embeds `is_loading_timed_out` (lines 122-124); elapsed wall-clock time
in milliseconds, threshold `Duration::from_secs(2)`. -/
def is_loading_timed_out (elapsed_ms : Nat) : Bool :=
  2000 < elapsed_ms

/-- Embeds the per-frame loading poll of `update` (lines 139-155): while
loading, consume a delivered list from the handoff slot, or fall back on
the timeout; either way clear the loading flag and re-filter.  Returns the
new state together with what remains in the slot. -/
def poll_loading (m : Matcher) (s : AppState) (slot : Option (List WindowInfo))
    (elapsed_ms : Nat) : AppState × Option (List WindowInfo) :=
  if s.is_loading then
    match slot with
    | some fetched =>
      (filter_windows m { s with windows := fetched, is_loading := false }, none)
    | none =>
      if is_loading_timed_out elapsed_ms then
        (filter_windows m { s with is_loading := false }, none)
      else (s, none)
  else (s, slot)

/-- One user-visible operation of the interactive loop. -/
inductive Op where
  | frame (slot : Option (List WindowInfo)) (elapsed_ms : Nat)
  | edit (q : String)
  | next
  | prev
  | commitKey
  | click (row : Nat)

/-- Applies one operation to the state; `none` marks a Rust panic. -/
def apply_op (m : Matcher) (s : AppState) : Op → Option AppState
  | .frame slot elapsed_ms => some (poll_loading m s slot elapsed_ms).1
  | .edit q => some (edit_query m s q)
  | .next => some (nav_next s)
  | .prev => some (nav_prev s)
  | .commitKey => (commit s).map Prod.fst
  | .click row => (click_row s row).map Prod.fst

/-- Runs a sequence of operations. -/
def run_ops (m : Matcher) (s : AppState) : List Op → Option AppState
  | [] => some s
  | op :: ops => (apply_op m s op).bind (fun s' => run_ops m s' ops)

/-- The three records of the parsing scenario. -/
def demo_windows : List WindowInfo :=
  [⟨"1", "Terminal", "~/proj"⟩, ⟨"2", "Browser", "github.com"⟩,
   ⟨"3", "Editor", "main.rs"⟩]

/-- A ready state over the scenario records with `ranked_indices = [2]`
and `selected = Some(0)` (pointing to record `3/Editor/main.rs`). -/
def demo_state : AppState :=
  { windows := demo_windows
    search_query := "main"
    filtered_windows := [2]
    selected_index := some 0
    is_loading := false
    window_to_focus := none }

/-- C4 divergence: with `selected = Some(0)` and `ranked_indices = [2]`
over the scenario records, the Enter commit resolves the selection to
record `3/Editor/main.rs`, issues the asynchronous focus request carrying
identifier `"3"`, and closes — but the direct pointer selection of the
displayed row stores the pending id `"3"` and closes WITHOUT issuing any
focus request, because the command spawn is gated on the Enter key. -/
theorem claim_C4_click_commit_divergence :
    commit demo_state = some (demo_state, [Effect.focusCmd "3", Effect.close])
    ∧ click_row demo_state 0 =
        some ({ demo_state with window_to_focus := some "3" }, [Effect.close]) := by
  decide

theorem filtered_nonempty_isEmpty {s : AppState} {i : Nat}
    (hi : i < s.filtered_windows.length) : s.filtered_windows.isEmpty = false := by
  rcases hf : s.filtered_windows with _ | _
  · rw [hf] at hi
    simp at hi
  · rfl


/-- Replace the selection of a state (the effect of the navigation keys
on `AppState`). -/
def set_sel (s : AppState) (j : Nat) : AppState :=
  { s with selected_index := some j }

theorem set_sel_selected (s : AppState) (j : Nat) :
    (set_sel s j).selected_index = some j := rfl

theorem set_sel_filtered (s : AppState) (j : Nat) :
    (set_sel s j).filtered_windows = s.filtered_windows := rfl

theorem set_sel_set_sel (s : AppState) (j k : Nat) :
    set_sel (set_sel s j) k = set_sel s k := rfl

theorem set_sel_self {s : AppState} {i : Nat} (h : s.selected_index = some i) :
    set_sel s i = s := by
  cases s
  cases h
  rfl

theorem nav_next_valid {s : AppState} {i : Nat} (h : s.selected_index = some i)
    (hi : i < s.filtered_windows.length) :
    nav_next s = set_sel s ((i + 1) % s.filtered_windows.length) := by
  rw [nav_next, filtered_nonempty_isEmpty hi]
  simp [h, set_sel]

theorem nav_prev_valid {s : AppState} {i : Nat} (h : s.selected_index = some i)
    (hi : i < s.filtered_windows.length) :
    nav_prev s =
      set_sel s ((i + (s.filtered_windows.length - 1)) % s.filtered_windows.length) := by
  rw [nav_prev, filtered_nonempty_isEmpty hi]
  simp only [Bool.false_eq_true, if_false, h, set_sel]
  congr 2
  by_cases h0 : i = 0
  · subst h0
    rw [if_pos rfl, Nat.zero_add, Nat.mod_eq_of_lt (by omega)]
  · have hrw : i + (s.filtered_windows.length - 1) =
        (i - 1) + s.filtered_windows.length := by omega
    rw [if_neg h0, hrw, Nat.add_mod_right, Nat.mod_eq_of_lt (by omega)]

theorem nav_next_iterate {s : AppState} {i : Nat} (h : s.selected_index = some i)
    (hi : i < s.filtered_windows.length) (k : Nat) :
    nav_next^[k] s = set_sel s ((i + k) % s.filtered_windows.length) := by
  induction k with
  | zero =>
    rw [Function.iterate_zero, id_eq, Nat.add_zero, Nat.mod_eq_of_lt hi, set_sel_self h]
  | succ k ih =>
    rw [Function.iterate_succ_apply', ih,
      nav_next_valid (set_sel_selected s ((i + k) % s.filtered_windows.length))
        (by rw [set_sel_filtered]; exact Nat.mod_lt _ (by omega)),
      set_sel_set_sel, set_sel_filtered]
    congr 1
    rw [Nat.mod_add_mod, Nat.add_assoc]

theorem nav_prev_iterate {s : AppState} {i : Nat} (h : s.selected_index = some i)
    (hi : i < s.filtered_windows.length) (k : Nat) :
    nav_prev^[k] s =
      set_sel s
        ((i + k * (s.filtered_windows.length - 1)) % s.filtered_windows.length) := by
  induction k with
  | zero =>
    rw [Function.iterate_zero, id_eq, Nat.zero_mul, Nat.add_zero,
      Nat.mod_eq_of_lt hi, set_sel_self h]
  | succ k ih =>
    rw [Function.iterate_succ_apply', ih,
      nav_prev_valid
        (set_sel_selected s
          ((i + k * (s.filtered_windows.length - 1)) % s.filtered_windows.length))
        (by rw [set_sel_filtered]; exact Nat.mod_lt _ (by omega)),
      set_sel_set_sel, set_sel_filtered]
    congr 1
    rw [Nat.mod_add_mod, Nat.succ_mul, Nat.add_assoc]

/-- C5: navigation advances/retreats the selection modulo the length `K`
of `ranked_indices`: from every valid selection, `next` applied `K` times
and `prev` applied `K` times both return to the start, and `next` followed
by `prev` is the identity on the whole state. -/
theorem claim_C5_navigation_wraps (s : AppState) (i : Nat)
    (h : s.selected_index = some i) (hi : i < s.filtered_windows.length) :
    nav_next^[s.filtered_windows.length] s = s
    ∧ nav_prev^[s.filtered_windows.length] s = s
    ∧ nav_prev (nav_next s) = s := by
  refine ⟨?_, ?_, ?_⟩
  · rw [nav_next_iterate h hi, Nat.add_mod_right, Nat.mod_eq_of_lt hi, set_sel_self h]
  · rw [nav_prev_iterate h hi, Nat.mul_comm, Nat.add_mul_mod_self_right,
      Nat.mod_eq_of_lt hi, set_sel_self h]
  · rw [nav_next_valid h hi,
      nav_prev_valid (set_sel_selected s ((i + 1) % s.filtered_windows.length))
        (by rw [set_sel_filtered]; exact Nat.mod_lt _ (by omega)),
      set_sel_set_sel, set_sel_filtered]
    have hrw : ((i + 1) % s.filtered_windows.length + (s.filtered_windows.length - 1)) %
        s.filtered_windows.length = i := by
      rw [Nat.mod_add_mod]
      have heq : i + 1 + (s.filtered_windows.length - 1) =
          i + s.filtered_windows.length := by omega
      rw [heq, Nat.add_mod_right, Nat.mod_eq_of_lt hi]
    rw [hrw, set_sel_self h]

/-- A ready state used to instantiate the navigation theorems. -/
def nav_demo_state : AppState :=
  { windows := demo_windows
    search_query := ""
    filtered_windows := [0, 1, 2]
    selected_index := some 1
    is_loading := false
    window_to_focus := none }

/-- C5 witness: the wrap-around theorem applied at a concrete state with
three ranked indices and the middle row selected. -/
theorem claim_C5_navigation_wraps_witness :
    nav_next^[3] nav_demo_state = nav_demo_state
    ∧ nav_prev^[3] nav_demo_state = nav_demo_state
    ∧ nav_prev (nav_next nav_demo_state) = nav_demo_state :=
  claim_C5_navigation_wraps nav_demo_state 1 rfl (by decide)

theorem focus_selected_window_fields {s : AppState} {r : AppState × Bool}
    (h : focus_selected_window s = some r) :
    r.1.windows = s.windows ∧ r.1.search_query = s.search_query
      ∧ r.1.filtered_windows = s.filtered_windows
      ∧ r.1.selected_index = s.selected_index
      ∧ r.1.is_loading = s.is_loading := by
  unfold focus_selected_window at h
  split at h
  · cases h
    exact ⟨rfl, rfl, rfl, rfl, rfl⟩
  · split at h
    · cases h
      exact ⟨rfl, rfl, rfl, rfl, rfl⟩
    · split at h
      · exact absurd h (by simp)
      · cases h
        exact ⟨rfl, rfl, rfl, rfl, rfl⟩

theorem commit_fields {s s' : AppState} {effs : List Effect}
    (h : commit s = some (s', effs)) :
    s'.windows = s.windows ∧ s'.search_query = s.search_query
      ∧ s'.filtered_windows = s.filtered_windows
      ∧ s'.selected_index = s.selected_index
      ∧ s'.is_loading = s.is_loading := by
  unfold commit at h
  split at h
  · split at h
    · exact absurd h (by simp)
    · rename_i s1 hfoc
      split at h
      · cases h
        exact focus_selected_window_fields hfoc
      · cases h
        exact focus_selected_window_fields hfoc
    · rename_i s1 hfoc
      cases h
      exact focus_selected_window_fields hfoc
  · cases h
    exact ⟨rfl, rfl, rfl, rfl, rfl⟩

theorem click_row_fields {s : AppState} {row : Nat} {r : AppState × List Effect}
    (h : click_row s row = some r) :
    r.1.windows = s.windows ∧ r.1.search_query = s.search_query
      ∧ r.1.filtered_windows = s.filtered_windows
      ∧ r.1.is_loading = s.is_loading
      ∧ (r.1.selected_index = s.selected_index
         ∨ ∃ winIdx, r.1.selected_index = s.filtered_windows.indexOf? winIdx) := by
  unfold click_row at h
  split at h
  · cases h
    exact ⟨rfl, rfl, rfl, rfl, Or.inl rfl⟩
  · rename_i winIdx hrow
    split at h
    · exact absurd h (by simp)
    · rename_i s2 hfoc
      cases h
      obtain ⟨hw, hq, hf, hsel, hl⟩ := focus_selected_window_fields hfoc
      exact ⟨hw, hq, hf, hl, Or.inr ⟨winIdx, hsel⟩⟩
    · rename_i s2 hfoc
      cases h
      obtain ⟨hw, hq, hf, hsel, hl⟩ := focus_selected_window_fields hfoc
      exact ⟨hw, hq, hf, hl, Or.inr ⟨winIdx, hsel⟩⟩

theorem indexOf?_lt_length {l : List Nat} {a j : Nat} (h : l.indexOf? a = some j) :
    j < l.length := by
  unfold List.indexOf? at h
  exact (List.findIdx?_eq_some_iff_findIdx_eq.mp h).1

/-- The selection invariant of spec §3: a `Some` selection indexes validly
into a non-empty `ranked_indices`. -/
def SelInv (s : AppState) : Prop :=
  s.filtered_windows ≠ [] →
    ∀ i, s.selected_index = some i → i < s.filtered_windows.length

theorem selInv_of_fields {s t : AppState}
    (hf : t.filtered_windows = s.filtered_windows)
    (hsel : t.selected_index = s.selected_index) (hs : SelInv s) : SelInv t := by
  intro hne i hi
  rw [hf] at hne ⊢
  rw [hsel] at hi
  exact hs hne i hi

theorem selInv_filter_windows (m : Matcher) (s : AppState) :
    SelInv (filter_windows m s) := by
  intro hne i hi
  have h0 : (filter_windows m s).selected_index = some 0 := rfl
  rw [h0] at hi
  cases hi
  exact List.length_pos.mpr hne

theorem selInv_nav_next {s : AppState} (hs : SelInv s) : SelInv (nav_next s) := by
  unfold nav_next
  split
  · exact hs
  · rename_i hne
    have hlen : 0 < s.filtered_windows.length := by
      rcases hf : s.filtered_windows with _ | _
      · rw [hf] at hne
        simp at hne
      · simp
    intro _ i hi
    cases hi
    exact Nat.mod_lt _ hlen

theorem selInv_nav_prev {s : AppState} (hs : SelInv s) : SelInv (nav_prev s) := by
  unfold nav_prev
  split
  · exact hs
  · rename_i hne
    have hne' : s.filtered_windows ≠ [] := by
      rcases hf : s.filtered_windows with _ | _
      · rw [hf] at hne
        simp at hne
      · simp [hf]
    have hlen : 0 < s.filtered_windows.length := List.length_pos.mpr hne'
    intro _ i hi
    cases hi
    rcases hsel : s.selected_index with _ | idx
    · exact hlen
    · show (if idx = 0 then s.filtered_windows.length - 1 else idx - 1) <
        s.filtered_windows.length
      have hidx := hs hne' idx hsel
      by_cases h0 : idx = 0
      · rw [if_pos h0]
        omega
      · rw [if_neg h0]
        omega

theorem poll_loading_result (m : Matcher) (s : AppState)
    (slot : Option (List WindowInfo)) (e : Nat) :
    (poll_loading m s slot e).1 = s
      ∨ ∃ t : AppState, (poll_loading m s slot e).1 = filter_windows m t := by
  rcases hld : s.is_loading with _ | _
  · simp [poll_loading, hld]
  · rcases slot with _ | fetched
    · by_cases ht : is_loading_timed_out e = true
      · refine Or.inr ⟨{ s with is_loading := false }, ?_⟩
        simp [poll_loading, hld, ht]
      · simp [poll_loading, hld, ht]
    · refine Or.inr ⟨{ s with windows := fetched, is_loading := false }, ?_⟩
      simp [poll_loading, hld]

theorem edit_query_result (m : Matcher) (s : AppState) (q : String) :
    edit_query m s q = { s with search_query := q }
      ∨ ∃ t : AppState, edit_query m s q = filter_windows m t := by
  unfold edit_query
  split
  · exact Or.inl rfl
  · exact Or.inr ⟨_, rfl⟩

theorem nav_next_fields (s : AppState) :
    (nav_next s).windows = s.windows
      ∧ (nav_next s).filtered_windows = s.filtered_windows
      ∧ (nav_next s).is_loading = s.is_loading := by
  unfold nav_next
  split
  · exact ⟨rfl, rfl, rfl⟩
  · exact ⟨rfl, rfl, rfl⟩

theorem nav_prev_fields (s : AppState) :
    (nav_prev s).windows = s.windows
      ∧ (nav_prev s).filtered_windows = s.filtered_windows
      ∧ (nav_prev s).is_loading = s.is_loading := by
  unfold nav_prev
  split
  · exact ⟨rfl, rfl, rfl⟩
  · exact ⟨rfl, rfl, rfl⟩

theorem selInv_apply_op {m : Matcher} {s : AppState} {op : Op} {s' : AppState}
    (hs : SelInv s) (h : apply_op m s op = some s') : SelInv s' := by
  cases op with
  | frame slot e =>
    simp only [apply_op, Option.some.injEq] at h
    subst h
    rcases poll_loading_result m s slot e with hp | ⟨t, hp⟩
    · rw [hp]
      exact hs
    · rw [hp]
      exact selInv_filter_windows m t
  | edit q =>
    simp only [apply_op, Option.some.injEq] at h
    subst h
    rcases edit_query_result m s q with hp | ⟨t, hp⟩
    · rw [hp]
      exact selInv_of_fields rfl rfl hs
    · rw [hp]
      exact selInv_filter_windows m t
  | next =>
    simp only [apply_op, Option.some.injEq] at h
    subst h
    exact selInv_nav_next hs
  | prev =>
    simp only [apply_op, Option.some.injEq] at h
    subst h
    exact selInv_nav_prev hs
  | commitKey =>
    simp only [apply_op] at h
    obtain ⟨⟨s1, effs⟩, hc, hfst⟩ := Option.map_eq_some'.mp h
    cases hfst
    obtain ⟨hw, hq, hf, hsel, hl⟩ := commit_fields hc
    exact selInv_of_fields hf hsel hs
  | click row =>
    simp only [apply_op] at h
    obtain ⟨⟨s1, effs⟩, hc, hfst⟩ := Option.map_eq_some'.mp h
    cases hfst
    obtain ⟨hw, hq, hf, hl, hsel⟩ := click_row_fields hc
    rcases hsel with hsel | ⟨winIdx, hsel⟩
    · exact selInv_of_fields hf hsel hs
    · intro hne i hi
      rw [hsel] at hi
      rw [hf]
      exact indexOf?_lt_length hi

/-- C6: the selection invariant — a `Some` selection indexes validly into
a non-empty ranking — is preserved by every operation; on an empty ranking
navigation and commit are panic-free no-ops and the selection resolves to
no row. -/
theorem claim_C6_selection_invariant :
    (∀ (m : Matcher) (s : AppState) (op : Op) (s' : AppState),
        SelInv s → apply_op m s op = some s' → SelInv s')
    ∧ (∀ s : AppState, s.filtered_windows = [] →
        nav_next s = s ∧ nav_prev s = s ∧ commit s = some (s, [])
          ∧ focus_selected_window s = some (s, false)) := by
  constructor
  · intro m s op s' hs h
    exact selInv_apply_op hs h
  · intro s hf
    have hempty : s.filtered_windows.isEmpty = true := by simp [hf]
    have hfocus : focus_selected_window s = some (s, false) := by
      unfold focus_selected_window
      rcases hsel : s.selected_index with _ | sel
      · rfl
      · rw [hf]
        rfl
    refine ⟨?_, ?_, ?_, hfocus⟩
    · rw [nav_next, if_pos hempty]
    · rw [nav_prev, if_pos hempty]
    · unfold commit
      rw [hfocus]
      rcases hsel : s.selected_index with _ | sel <;> rfl

/-- A ready state with an empty ranking, over the scenario records. -/
def empty_demo_state : AppState :=
  { windows := demo_windows
    search_query := "zzz"
    filtered_windows := []
    selected_index := some 0
    is_loading := false
    window_to_focus := none }

/-- C6 witness: the empty-ranking clauses of the invariant theorem applied
at a concrete state whose ranking is empty. -/
theorem claim_C6_selection_invariant_witness :
    nav_next empty_demo_state = empty_demo_state
      ∧ commit empty_demo_state = some (empty_demo_state, []) :=
  ⟨(claim_C6_selection_invariant.2 empty_demo_state rfl).1,
   (claim_C6_selection_invariant.2 empty_demo_state rfl).2.2.1⟩

/-- The ranked-indices invariant: every ranked index addresses a window of
`all_windows`, and no ranked index repeats. -/
def RankedInv (s : AppState) : Prop :=
  (∀ i ∈ s.filtered_windows, i < s.windows.length) ∧ s.filtered_windows.Nodup

theorem map_fst_filterMap_sublist {α β : Type _} (f : Nat × α → Option (Nat × β))
    (hf : ∀ a b, f a = some b → b.1 = a.1) (l : List (Nat × α)) :
    ((l.filterMap f).map Prod.fst).Sublist (l.map Prod.fst) := by
  induction l with
  | nil => simp
  | cons a l ih =>
    rw [List.filterMap_cons, List.map_cons]
    cases hfa : f a with
    | none => exact ih.cons a.1
    | some b =>
      rw [List.map_cons, hf a b hfa]
      exact ih.cons₂ a.1

theorem filter_windows_fn_bounds (m : Matcher) (ws : List WindowInfo) (q : String) :
    (∀ i ∈ filter_windows_fn m ws q, i < ws.length)
      ∧ (filter_windows_fn m ws q).Nodup := by
  unfold filter_windows_fn
  split
  · exact ⟨fun i hi => List.mem_range.mp hi, List.nodup_range _⟩
  · have hsub : ((ws.enum.filterMap (scoreEntry m q)).map Prod.fst).Sublist
        (List.range ws.length) := by
      rw [← List.enum_map_fst ws]
      refine map_fst_filterMap_sublist _ ?_ ws.enum
      intro a b hb
      rw [scoreEntry_eq_map] at hb
      obtain ⟨sc, hsc, hpair⟩ := Option.map_eq_some'.mp hb
      rw [← hpair]
    have hperm := (List.mergeSort_perm (ws.enum.filterMap (scoreEntry m q))
      (fun a b => b.2 ≤ a.2)).map Prod.fst
    constructor
    · intro i hi
      exact List.mem_range.mp (hsub.mem (hperm.mem_iff.mp hi))
    · exact hperm.nodup_iff.mpr (hsub.nodup (List.nodup_range _))

theorem rankedInv_filter_windows (m : Matcher) (s : AppState) :
    RankedInv (filter_windows m s) := by
  have h := filter_windows_fn_bounds m s.windows s.search_query
  exact ⟨h.1, h.2⟩

theorem rankedInv_of_fields {s t : AppState} (hw : t.windows = s.windows)
    (hf : t.filtered_windows = s.filtered_windows) (hs : RankedInv s) :
    RankedInv t := by
  constructor
  · intro i hi
    rw [hw]
    rw [hf] at hi
    exact hs.1 i hi
  · rw [hf]
    exact hs.2

theorem rankedInv_apply_op {m : Matcher} {s : AppState} {op : Op} {s' : AppState}
    (hs : RankedInv s) (h : apply_op m s op = some s') : RankedInv s' := by
  cases op with
  | frame slot e =>
    simp only [apply_op, Option.some.injEq] at h
    subst h
    rcases poll_loading_result m s slot e with hp | ⟨t, hp⟩
    · rw [hp]
      exact hs
    · rw [hp]
      exact rankedInv_filter_windows m t
  | edit q =>
    simp only [apply_op, Option.some.injEq] at h
    subst h
    rcases edit_query_result m s q with hp | ⟨t, hp⟩
    · rw [hp]
      exact rankedInv_of_fields rfl rfl hs
    · rw [hp]
      exact rankedInv_filter_windows m t
  | next =>
    simp only [apply_op, Option.some.injEq] at h
    subst h
    obtain ⟨hw, hf, _⟩ := nav_next_fields s
    exact rankedInv_of_fields hw hf hs
  | prev =>
    simp only [apply_op, Option.some.injEq] at h
    subst h
    obtain ⟨hw, hf, _⟩ := nav_prev_fields s
    exact rankedInv_of_fields hw hf hs
  | commitKey =>
    simp only [apply_op] at h
    obtain ⟨⟨s1, effs⟩, hc, hfst⟩ := Option.map_eq_some'.mp h
    cases hfst
    obtain ⟨hw, hq, hf, hsel, hl⟩ := commit_fields hc
    exact rankedInv_of_fields hw hf hs
  | click row =>
    simp only [apply_op] at h
    obtain ⟨⟨s1, effs⟩, hc, hfst⟩ := Option.map_eq_some'.mp h
    cases hfst
    obtain ⟨hw, hq, hf, hl, _⟩ := click_row_fields hc
    exact rankedInv_of_fields hw hf hs

theorem focus_selected_window_isSome {s : AppState} (hs : RankedInv s) :
    focus_selected_window s ≠ none := by
  unfold focus_selected_window
  rcases hsel : s.selected_index with _ | sel
  · simp
  · dsimp only
    rcases hrow : s.filtered_windows[sel]? with _ | idx
    · simp
    · dsimp only
      rcases hwin : s.windows[idx]? with _ | w
      · intro _
        obtain ⟨hlt, hget⟩ := List.getElem?_eq_some.mp hrow
        have hidx : idx ∈ s.filtered_windows := hget ▸ List.getElem_mem hlt
        have hlt2 := hs.1 idx hidx
        have hge : s.windows.length ≤ idx := List.getElem?_eq_none_iff.mp hwin
        omega
      · simp

theorem commit_isSome {s : AppState} (hs : RankedInv s) : commit s ≠ none := by
  unfold commit
  split
  · split
    · rename_i heq
      exact absurd heq (focus_selected_window_isSome hs)
    · split <;> simp
    · simp
  · simp

theorem click_row_isSome {s : AppState} (hs : RankedInv s) (row : Nat) :
    click_row s row ≠ none := by
  unfold click_row
  split
  · simp
  · rename_i winIdx hrow
    split
    · rename_i heq
      have hs1 : RankedInv
          { s with selected_index := s.filtered_windows.indexOf? winIdx } :=
        rankedInv_of_fields rfl rfl hs
      exact absurd heq (focus_selected_window_isSome hs1)
    · simp
    · simp

/-- C10: after every invocation of the Filter Engine every ranked index is
a valid, pairwise-distinct index into `all_windows`; the invariant is
preserved by every operation, and under it no operation ever hits the
unchecked out-of-bounds resolution (no panic). -/
theorem claim_C10_ranked_indices_valid :
    (∀ (m : Matcher) (s : AppState), RankedInv (filter_windows m s))
    ∧ (∀ (m : Matcher) (s : AppState) (op : Op) (s' : AppState),
        RankedInv s → apply_op m s op = some s' → RankedInv s')
    ∧ (∀ (m : Matcher) (s : AppState) (op : Op),
        RankedInv s → apply_op m s op ≠ none) := by
  refine ⟨rankedInv_filter_windows, fun m s op s' hs h => rankedInv_apply_op hs h, ?_⟩
  intro m s op hs
  cases op with
  | frame slot e => simp [apply_op]
  | edit q => simp [apply_op]
  | next => simp [apply_op]
  | prev => simp [apply_op]
  | commitKey =>
    simp only [apply_op]
    intro h
    exact absurd (Option.map_eq_none'.mp h) (commit_isSome hs)
  | click row =>
    simp only [apply_op]
    intro h
    exact absurd (Option.map_eq_none'.mp h) (click_row_isSome hs row)

/-- C10 witness: the preservation clause applied at a concrete state
satisfying the invariant and a concrete navigation operation. -/
theorem claim_C10_ranked_indices_valid_witness :
    RankedInv (nav_next nav_demo_state) :=
  claim_C10_ranked_indices_valid.2.1 (fun _ _ => none) nav_demo_state Op.next
    (nav_next nav_demo_state) ⟨by decide, by decide⟩ rfl

theorem filter_windows_fn_empty_windows (m : Matcher) (q : String) :
    filter_windows_fn m [] q = [] := by
  unfold filter_windows_fn
  split
  · rfl
  · simp

theorem poll_loading_not_loading {m : Matcher} {s : AppState}
    {slot : Option (List WindowInfo)} {e : Nat} (h : s.is_loading = false) :
    poll_loading m s slot e = (s, slot) := by
  simp [poll_loading, h]

theorem edit_query_is_loading (m : Matcher) (s : AppState) (q : String) :
    (edit_query m s q).is_loading = s.is_loading := by
  unfold edit_query
  split
  · rfl
  · rfl

theorem apply_op_loading {m : Matcher} {s : AppState} {op : Op} {s' : AppState}
    (h : s.is_loading = false) (happ : apply_op m s op = some s') :
    s'.is_loading = false := by
  cases op with
  | frame slot e =>
    simp only [apply_op, Option.some.injEq] at happ
    subst happ
    rw [poll_loading_not_loading h]
    exact h
  | edit q =>
    simp only [apply_op, Option.some.injEq] at happ
    subst happ
    rw [edit_query_is_loading]
    exact h
  | next =>
    simp only [apply_op, Option.some.injEq] at happ
    subst happ
    rw [(nav_next_fields s).2.2]
    exact h
  | prev =>
    simp only [apply_op, Option.some.injEq] at happ
    subst happ
    rw [(nav_prev_fields s).2.2]
    exact h
  | commitKey =>
    simp only [apply_op] at happ
    obtain ⟨⟨s1, effs⟩, hc, hfst⟩ := Option.map_eq_some'.mp happ
    cases hfst
    rw [(commit_fields hc).2.2.2.2]
    exact h
  | click row =>
    simp only [apply_op] at happ
    obtain ⟨⟨s1, effs⟩, hc, hfst⟩ := Option.map_eq_some'.mp happ
    cases hfst
    rw [(click_row_fields hc).2.2.2.1]
    exact h

theorem run_ops_loading {m : Matcher} {ops : List Op} :
    ∀ {s s' : AppState}, s.is_loading = false → run_ops m s ops = some s' →
      s'.is_loading = false := by
  induction ops with
  | nil =>
    intro s s' h hr
    simp only [run_ops, Option.some.injEq] at hr
    subst hr
    exact h
  | cons op ops ih =>
    intro s s' h hr
    rw [run_ops] at hr
    rcases happ : apply_op m s op with _ | t
    · rw [happ] at hr
      cases hr
    · rw [happ] at hr
      simp only [Option.some_bind] at hr
      exact ih (apply_op_loading h happ) hr

/-- C8: while loading, the per-frame poll leaves the loading state exactly
when the handoff slot holds a delivered list (consumed into `all_windows`
and filtered) or the 2-second timeout has elapsed (windows stay as they
were; with no delivery they stay empty and the ranking comes out empty);
and `Ready` is terminal — once the loading flag is false no sequence of
operations makes it true again. -/
theorem claim_C8_loading_transition (m : Matcher) (s : AppState)
    (hs : s.is_loading = true) (slot : Option (List WindowInfo)) (e : Nat) :
    ((poll_loading m s slot e).1.is_loading = false
        ↔ (slot.isSome = true ∨ is_loading_timed_out e = true))
    ∧ (∀ l, slot = some l →
        poll_loading m s slot e =
          (filter_windows m { s with windows := l, is_loading := false }, none))
    ∧ (slot = none → is_loading_timed_out e = true →
        (poll_loading m s slot e).1.windows = s.windows
          ∧ (s.windows = [] → (poll_loading m s slot e).1.filtered_windows = []))
    ∧ (∀ (ops : List Op) (s0 s1 : AppState), s0.is_loading = false →
        run_ops m s0 ops = some s1 → s1.is_loading = false) := by
  refine ⟨?_, ?_, ?_, fun ops s0 s1 h0 hr => run_ops_loading h0 hr⟩
  · rcases slot with _ | l
    · by_cases ht : is_loading_timed_out e = true
      · simp [poll_loading, hs, ht, filter_windows]
      · simp [poll_loading, hs, ht]
    · simp [poll_loading, hs, filter_windows]
  · intro l hl
    subst hl
    simp [poll_loading, hs]
  · intro hslot ht
    subst hslot
    constructor
    · simp [poll_loading, hs, ht, filter_windows]
    · intro hw
      simp [poll_loading, hs, ht, filter_windows, hw,
        filter_windows_fn_empty_windows]

/-- A freshly constructed state: loading, with everything empty. -/
def loading_demo_state : AppState :=
  { windows := []
    search_query := ""
    filtered_windows := []
    selected_index := none
    is_loading := true
    window_to_focus := none }

/-- C8 witness: the transition criterion applied at the initial loading
state, with an empty handoff slot and an elapsed time past the 2-second
threshold. -/
theorem claim_C8_loading_transition_witness :
    (poll_loading (fun _ _ => none) loading_demo_state none 3000).1.is_loading = false
      ↔ ((none : Option (List WindowInfo)).isSome = true
          ∨ is_loading_timed_out 3000 = true) :=
  (claim_C8_loading_transition (fun _ _ => none) loading_demo_state rfl none 3000).1
